import Mathlib

/-!
Verification of the hybrid retrieval and caching engine of the hey-ai CLI.

The embedding below is a shallow model of the TypeScript sources:
* `src/src/context/files.ts` — `SessionHistory` (keyword search `searchFTS`,
  semantic search `searchSemantic`, fusion ranker `searchHybrid`, the
  substring fallback `search`, and `addEntry` with its embedding side table);
* `src/unnamed/part_005` — `CommandDocsCache` (`get`, `set`, `enforceMaxSize`).

Modelling conventions:
* JavaScript numbers are modelled as `ℚ` (every constant appearing in the
  algorithms is exactly representable and all operations used are order /
  field operations).
* The SQLite engines (FTS5 `MATCH` ranking and the vss0 nearest-neighbour
  scan) are external collaborators; they are modelled as oracle functions
  stored in the database state.  A SQL `LIMIT n` over a deterministic
  `ORDER BY` is modelled as `List.take n` of the full oracle ranking.
* JavaScript `Map` objects (insertion ordered, `set` replaces in place) are
  modelled as association lists with an in-place replacing `mapSet`.
* `Array.prototype.sort` is stable; it is modelled by the stable insertion
  sort `sortStable` where `keep x r = true` means the comparator puts `x`
  strictly before `r`.
* Exceptions are modelled with `Except`; code paths that catch every
  exception are total functions.
-/

namespace HeyAI

/-- An interaction record, `SessionEntry` of `files.ts`. -/
structure SessionEntry where
  id : Nat
  prompt : String
  response : String
  timestamp : Nat
  cwd : String
deriving DecidableEq

/-- The `source` discriminator of a `SearchResult` in `files.ts`. -/
inductive Source where
  | fts
  | semantic
  | hybrid
deriving DecidableEq

/-- A `SearchResult` of `files.ts`: an entry together with a score. -/
structure SearchResult where
  entry : SessionEntry
  score : ℚ
  source : Source
deriving DecidableEq

/-- A row produced by one of the SQL engines: an entry plus the raw engine
score (BM25 value for FTS5, distance for vss0). -/
structure ScoredRow where
  entry : SessionEntry
  score : ℚ
deriving DecidableEq

/-- Stable insertion step: `r` is placed after every element `x` that the
comparator keeps strictly before it (`keep x r = true`), matching the
stability guarantee of `Array.prototype.sort`. -/
def insertStable (keep : α → α → Bool) (r : α) : List α → List α
  | [] => [r]
  | x :: xs => if keep x r then x :: insertStable keep r xs else r :: x :: xs

/-- Stable sort by the comparator `keep` (see `insertStable`). -/
def sortStable (keep : α → α → Bool) : List α → List α
  | [] => []
  | x :: xs => insertStable keep x (sortStable keep xs)

/-!
The numeric operations of the algorithms are written with kernel-computable
counterparts of the `ℚ` field operations (the standard `Rat.add`, `Rat.mul`,
`Rat.inv` are `@[irreducible]`, so concrete runs could not be checked by
`decide` through them).  Each operation is proved equal to the standard one
(`qAdd_eq`, `qSub_eq`, `qDiv_eq`, `jsMax_eq`, `jsMin_eq`, `jsAbs_eq`), and all
reasoning goes through the standard operations.
-/

/-- Computable addition on `ℚ` (equals `+`, see `qAdd_eq`). -/
def qAdd (a b : ℚ) : ℚ := mkRat (a.num * b.den + b.num * a.den) (a.den * b.den)

/-- Computable negation-and-add, i.e. subtraction (equals `-`, `qSub_eq`). -/
def qSub (a b : ℚ) : ℚ := qAdd a (-b)

/-- Computable division on `ℚ` (equals `/`, see `qDiv_eq`). -/
def qDiv (a b : ℚ) : ℚ := Rat.divInt (a.num * b.den) (b.num * a.den)

/-- JS `Math.max` on `ℚ`, written with `if` so that it evaluates by kernel
reduction (it equals `max`, see `jsMax_eq`). -/
def jsMax (a b : ℚ) : ℚ := if a ≤ b then b else a

/-- JS `Math.min` on `ℚ` (equals `min`, see `jsMin_eq`). -/
def jsMin (a b : ℚ) : ℚ := if a ≤ b then a else b

/-- JS `Math.abs` on `ℚ` (equals the absolute value, see `jsAbs_eq`). -/
def jsAbs (a : ℚ) : ℚ := if a < 0 then -a else a

/-- The expression `Math.max(...rs.map(r => Math.abs(r.score)), 1)` of `searchHybrid`. -/
def maxFtsScore (rs : List SearchResult) : ℚ :=
  rs.foldr (fun r m => jsMax (jsAbs r.score) m) 1

/-- The expression `Math.max(...rs.map(r => r.score), 1)` of `searchHybrid`. -/
def maxSemanticScore (rs : List SearchResult) : ℚ :=
  rs.foldr (fun r m => jsMax r.score m) 1

/-- The `maxAbs` of the spec: maximum of `|score|` over keyword candidates,
`0` when the list is empty (no floor at 1).  Used to compare the normalisation
of the code against the specified one. -/
def maxAbsSpec (rs : List SearchResult) : ℚ :=
  rs.foldr (fun r m => jsMax (jsAbs r.score) m) 0

/-- The `maxDist` of the spec: maximum distance over vector candidates, `0` when
empty (no floor at 1). -/
def maxDistSpec (rs : List SearchResult) : ℚ :=
  rs.foldr (fun r m => jsMax r.score m) 0

/-- Normalised keyword score: `1 - Math.abs(r.score) / maxFtsScore`. -/
def normFtsScore (rs : List SearchResult) (r : SearchResult) : ℚ :=
  qSub 1 (qDiv (jsAbs r.score) (maxFtsScore rs))

/-- Normalised vector score: `1 - r.score / maxSemanticScore`. -/
def normSemanticScore (rs : List SearchResult) (r : SearchResult) : ℚ :=
  qSub 1 (qDiv r.score (maxSemanticScore rs))

/-- The agreement-boost formula applied to an entry found by both methods:
`Math.min(1.0, (existing.score + normalizedScore) / 2 + 0.2)`. -/
def fusedScore (a b : ℚ) : ℚ :=
  jsMin 1 (qAdd (qDiv (qAdd a b) 2) (mkRat 1 5))

/-- JS `resultMap.set(id, r)` on an insertion-ordered map: replace in place when
the id is present, append otherwise. -/
def mapSet (m : List SearchResult) (r : SearchResult) : List SearchResult :=
  if m.any (fun x => x.entry.id == r.entry.id) then
    m.map (fun x => if x.entry.id == r.entry.id then r else x)
  else
    m ++ [r]

/-- One iteration of the semantic-merge loop of `searchHybrid`: fuse with the
existing map entry when present, insert the normalised semantic result
otherwise. -/
def mergeSemantic (sem : List SearchResult) (m : List SearchResult)
    (r : SearchResult) : List SearchResult :=
  if m.any (fun x => x.entry.id == r.entry.id) then
    m.map (fun x =>
      if x.entry.id == r.entry.id then
        { x with score := fusedScore x.score (normSemanticScore sem r) }
      else x)
  else
    m ++ [{ entry := r.entry, score := normSemanticScore sem r, source := Source.hybrid }]

/-- The merge-and-rank phase of `searchHybrid` (`files.ts` lines 348-378):
normalise keyword candidates into the map, merge semantic candidates, sort by
score descending (stable) and truncate to `limit`. -/
def hybridMerge (fts sem : List SearchResult) (limit : Nat) : List SearchResult :=
  let m1 := fts.foldl
    (fun m r => mapSet m { entry := r.entry, score := normFtsScore fts r, source := Source.hybrid })
    []
  let m2 := sem.foldl (mergeSemantic sem) m1
  (sortStable (fun x r => x.score > r.score) m2).take limit

/-- Character stripped by the FTS5 regex sanitiser of `searchFTS`:
apostrophe (39), double quote (34), asterisk (42) and parentheses (40, 41). -/
def ftsSpecial (c : Char) : Bool :=
  c.toNat == 39 || c.toNat == 34 || c.toNat == 42 || c.toNat == 40 || c.toNat == 41

/-- The sanitiser `query.replace` composed with `trim` of `searchFTS`. -/
def sanitize (q : String) : String :=
  String.mk
    ((((q.data.map (fun c => if ftsSpecial c then ' ' else c)).dropWhile
        Char.isWhitespace).reverse.dropWhile Char.isWhitespace).reverse)

/-- Substring containment test on character lists. -/
def containsSeq (needle : List Char) : List Char → Bool
  | [] => needle.isEmpty
  | c :: cs => needle.isPrefixOf (c :: cs) || containsSeq needle cs

/-- SQLite `LIKE` pattern test used by the fallback `search`:
case-insensitive (for ASCII) substring containment of the query in the
prompt or the response. -/
def likeMatches (q : String) (e : SessionEntry) : Bool :=
  let ql := q.data.map Char.toLower
  containsSeq ql (e.prompt.data.map Char.toLower)
    || containsSeq ql (e.response.data.map Char.toLower)

/-- Database state seen by `SessionHistory` queries.  The two SQL engines are
external collaborators and appear as ranking oracles:
`ftsExec` is the FTS5 engine on the (sanitised) `MATCH` query — `.error` is a
query-syntax error, `.ok rows` the full ranking ordered by `bm25` ascending;
`vssExec` is the vss0 engine on a query embedding and a `k` parameter,
ordered by distance ascending, with the `score` of a row being the distance. -/
structure SessionDB where
  history : List SessionEntry
  embCount : Nat
  ftsExec : String → Except Unit (List ScoredRow)
  vssExec : List ℚ → Nat → List ScoredRow

/-- The ranked pool of the fallback `search` (rows matching `LIKE`, ordered
by `timestamp` descending); `LIMIT` is `List.take` of this pool. -/
def searchPool (db : SessionDB) (q : String) : List SessionEntry :=
  sortStable (fun x r => x.timestamp > r.timestamp) (db.history.filter (likeMatches q))

/-- Model of `SessionHistory.search` (`files.ts` lines 384-392): `LIKE` substring
search ordered by recency, truncated to `limit`. -/
def search (db : SessionDB) (q : String) (limit : Nat) : List SessionEntry :=
  (searchPool db q).take limit

/-- Model of `SessionHistory.searchFTS` (`files.ts` lines 280-301): sanitise; empty
query returns `[]`; otherwise run the FTS5 query, and on a syntax error fall
back to `search` with neutral score 0. -/
def searchFTS (db : SessionDB) (q : String) (limit : Nat) : List SearchResult :=
  let sanitized := sanitize q
  if sanitized.data.isEmpty then []
  else
    match db.ftsExec sanitized with
    | .ok rows =>
        (rows.take limit).map (fun r => { entry := r.entry, score := r.score, source := Source.fts })
    | .error _ =>
        (search db q limit).map (fun e => { entry := e, score := 0, source := Source.fts })

/-- Model of `SessionHistory.searchSemantic` (`files.ts` lines 306-336).  `emb` is the
outcome of the `getEmbedding(query)` call (the Embedding Provider is
external); every failure inside the `try` block yields `[]`. -/
def searchSemantic (db : SessionDB) (emb : Except Unit (List ℚ)) (limit : Nat) :
    List SearchResult :=
  if db.embCount == 0 then []
  else
    match emb with
    | .error _ => []
    | .ok qe =>
        (db.vssExec qe limit).map
          (fun r => { entry := r.entry, score := r.score, source := Source.semantic })

/-- Model of `SessionHistory.searchHybrid` (`files.ts` lines 341-379): fetch `2*limit`
candidates from each index and fuse them with `hybridMerge`. -/
def searchHybrid (db : SessionDB) (emb : Except Unit (List ℚ)) (q : String)
    (limit : Nat) : List SearchResult :=
  hybridMerge (searchFTS db q (limit * 2)) (searchSemantic db emb (limit * 2)) limit

/-! ### `addEntry` and the embedding side tables -/

/-- A row of the `history` table. -/
structure HistRow where
  id : Nat
  prompt : String
  response : String
  timestamp : Nat
  cwd : String
deriving DecidableEq

/-- Mutable state of the three tables touched by `addEntry`: the `history`
table, the `history_vss` virtual table (rowid, embedding) and the
`history_embeddings` mapping table (history_id, vss_rowid).  `nextId` is the
AUTOINCREMENT counter of `history`. -/
structure DBState where
  history : List HistRow
  vss : List (Nat × List ℚ)
  embeddings : List (Nat × Nat)
  nextId : Nat

/-- Model of `SessionHistory.addEntry` (`files.ts` lines 238-268).  The main insert
always happens; the embedding step runs under a `try` whose failure is
swallowed.  On success the code inserts the vector with `rowid = historyId`
and writes `(historyId, historyId)` into the mapping table. -/
def addEntry (st : DBState) (emb : String → Except Unit (List ℚ))
    (prompt response cwd : String) (now : Nat) : DBState × Nat :=
  let historyId := st.nextId
  let st1 : DBState :=
    { st with
      history := st.history ++ [⟨historyId, prompt, response, now, cwd⟩]
      nextId := st.nextId + 1 }
  match emb (prompt ++ "\n" ++ response) with
  | .error _ => (st1, historyId)
  | .ok v =>
      ({ st1 with
          vss := st1.vss ++ [(historyId, v)]
          embeddings := st1.embeddings ++ [(historyId, historyId)] },
        historyId)

/-! ### `CommandDocsCache` (`src/unnamed/part_005`) -/

/-- The `DocSource` discriminator of the docs cache. -/
inductive DocSource where
  | man
  | tldr
deriving DecidableEq

/-- One cached file: its (deterministically derived) path key, raw contents
and `mtimeMs`.  File contents are modelled as character lists so that sizes
and parsing are structural. -/
structure CacheFile where
  key : String
  data : List Char
  mtimeMs : Nat
deriving DecidableEq

/-- The cache directory: a list of files.  `getCachePath` is deterministic in
the command (URL-encoding plus hash truncation), so paths are modelled by the
raw command string. -/
abbrev DocsCache := List CacheFile

/-- The metadata header written by `set`. -/
def header (source : DocSource) : List Char :=
  match source with
  | .man => "---\nsource: man\n---\n".data
  | .tldr => "---\nsource: tldr\n---\n".data

/-- Model of `CommandDocsCache.set` (lines 80-97): write (create or overwrite) the
cache file with the metadata header; the eviction pass it triggers is
asynchronous and modelled separately by `enforceMaxSize`. -/
def cacheSet (st : DocsCache) (command : String) (content : List Char)
    (source : DocSource) (now : Nat) : DocsCache :=
  let data := header source ++ content
  if st.any (fun f => f.key == command) then
    st.map (fun f => if f.key == command then ⟨command, data, now⟩ else f)
  else
    st ++ [⟨command, data, now⟩]

/-- The parse of the cache-file format in `get`: the anchored regex
`^---\nsource: (man|tldr)\n---\n([\s\S]*)$`, whose match succeeds exactly on
one of the two literal headers and captures the remainder. -/
def parseCacheFile (data : List Char) : Option (List Char) :=
  if (header DocSource.man).isPrefixOf data then
    some (data.drop (header DocSource.man).length)
  else if (header DocSource.tldr).isPrefixOf data then
    some (data.drop (header DocSource.tldr).length)
  else
    none

/-- Model of `CommandDocsCache.get` (lines 51-74): miss when absent; delete and miss
when the stored record is malformed; on a hit refresh `mtimeMs` to `now` and
return the content after the header. -/
def cacheGet (st : DocsCache) (command : String) (now : Nat) :
    Option (List Char) × DocsCache :=
  match st.find? (fun f => f.key == command) with
  | none => (none, st)
  | some f =>
      match parseCacheFile f.data with
      | none => (none, st.filter (fun g => g.key != command))
      | some content =>
          (some content,
            st.map (fun g => if g.key == command then { g with mtimeMs := now } else g))

/-- Total stored bytes of the cache. -/
def totalSize (st : DocsCache) : Nat :=
  (st.map (fun f => f.data.length)).sum

/-- The deletion loop of `enforceMaxSize` (lines 144-155) over the
mtime-sorted file list: stop as soon as the running total is within budget,
otherwise delete the head and continue.  Returns (deleted, surviving). -/
def evictLoop (budget : Nat) : Nat → List CacheFile → List CacheFile × List CacheFile
  | _, [] => ([], [])
  | total, f :: fs =>
      if total ≤ budget then ([], f :: fs)
      else
        let p := evictLoop budget (total - f.data.length) fs
        (f :: p.1, p.2)

/-- Model of `CommandDocsCache.enforceMaxSize` (lines 103-161), one uncontended pass:
if the total is within budget do nothing, else sort ascending by `mtimeMs`
(stable, as `Array.prototype.sort`) and delete oldest-first until within
budget.  Returns (surviving files, deleted files). -/
def enforceMaxSize (budget : Nat) (st : DocsCache) : DocsCache × List CacheFile :=
  let total := totalSize st
  if total ≤ budget then (st, [])
  else
    let sorted := sortStable (fun x r => x.mtimeMs < r.mtimeMs) st
    let p := evictLoop budget total sorted
    (p.2, p.1)

/-! ### Concrete data used by witnesses and counterexamples -/

/-- A concrete interaction entry. -/
def entryA : SessionEntry := ⟨1, "how to use find", "use fd instead", 100, "/x"⟩

/-- A second concrete interaction entry. -/
def entryB : SessionEntry := ⟨2, "unrelated", "data", 200, "/x"⟩

/-- A database whose single entry is matched by both engines: keyword score 0
(best possible normalisation) and vector distance 2. -/
def dbBoth : SessionDB :=
  ⟨[entryA], 1, fun _ => .ok [⟨entryA, 0⟩], fun _ _ => [⟨entryA, 2⟩]⟩

/-- A database with two keyword candidates of different BM25 strength and no
vector rows. -/
def dbTwoKw : SessionDB :=
  ⟨[entryA, entryB], 0, fun _ => .ok [⟨entryA, -5⟩, ⟨entryB, -1⟩], fun _ _ => []⟩

/-- The full keyword candidate pool of `searchFTS` (before the SQL `LIMIT`):
`searchFTS db q limit = (ftsPool db q).take limit`, see `searchFTS_eq_pool`. -/
def ftsPool (db : SessionDB) (q : String) : List SearchResult :=
  if (sanitize q).data.isEmpty then []
  else
    match db.ftsExec (sanitize q) with
    | .ok rows =>
        rows.map (fun r => { entry := r.entry, score := r.score, source := Source.fts })
    | .error _ =>
        (searchPool db q).map (fun e => { entry := e, score := 0, source := Source.fts })

/-- An Embedding Provider that always fails. -/
def embFail : String → Except Unit (List ℚ) := fun _ => .error ()

/-- An Embedding Provider that always returns the vector `[1]`. -/
def embOkOne : String → Except Unit (List ℚ) := fun _ => .ok [1]

/-- A database with one entry, an empty keyword index and no vectors. -/
def dbEmptyQ : SessionDB := ⟨[entryA], 0, fun _ => .ok [], fun _ _ => []⟩

/-- A database whose FTS engine rejects every query with a syntax error. -/
def dbErr : SessionDB := ⟨[entryA], 0, fun _ => .error (), fun _ _ => []⟩

/-! ### Generic list lemmas -/

theorem qAdd_eq (a b : ℚ) : qAdd a b = a + b := by
  unfold qAdd
  conv_rhs => rw [← Rat.num_div_den a, ← Rat.num_div_den b]
  rw [div_add_div _ _ (Nat.cast_ne_zero.mpr a.den_nz) (Nat.cast_ne_zero.mpr b.den_nz),
    Rat.mkRat_eq_div]
  push_cast
  ring_nf

theorem qSub_eq (a b : ℚ) : qSub a b = a - b := by
  rw [qSub, qAdd_eq, sub_eq_add_neg]

theorem qDiv_eq (a b : ℚ) : qDiv a b = a / b := by
  unfold qDiv
  rcases eq_or_ne b 0 with rfl | hb
  · simp [Rat.divInt_eq_div]
  · have hda : ((a.den : ℚ)) ≠ 0 := Nat.cast_ne_zero.mpr a.den_nz
    have hdb : ((b.den : ℚ)) ≠ 0 := Nat.cast_ne_zero.mpr b.den_nz
    have hnb : ((b.num : ℚ)) ≠ 0 := Int.cast_ne_zero.mpr (Rat.num_ne_zero.mpr hb)
    have ha : (a.num : ℚ) = a * a.den := (div_eq_iff hda).mp (Rat.num_div_den a)
    have hb2 : (b.num : ℚ) = b * b.den := (div_eq_iff hdb).mp (Rat.num_div_den b)
    rw [Rat.divInt_eq_div]
    push_cast
    rw [div_eq_div_iff (mul_ne_zero hnb hda) hb]
    rw [ha, hb2]
    ring

theorem jsMax_eq (a b : ℚ) : jsMax a b = max a b := by
  simp [jsMax, max_def]

theorem jsMin_eq (a b : ℚ) : jsMin a b = min a b := by
  simp [jsMin, min_def]

theorem jsAbs_eq (a : ℚ) : jsAbs a = |a| := by
  rcases lt_or_le a 0 with h | h
  · simp [jsAbs, h, abs_of_neg h]
  · simp [jsAbs, not_lt.mpr h, abs_of_nonneg h]

theorem normFtsScore_eq (rs : List SearchResult) (r : SearchResult) :
    normFtsScore rs r = 1 - |r.score| / maxFtsScore rs := by
  rw [normFtsScore, qSub_eq, qDiv_eq, jsAbs_eq]

theorem normSemanticScore_eq (rs : List SearchResult) (r : SearchResult) :
    normSemanticScore rs r = 1 - r.score / maxSemanticScore rs := by
  rw [normSemanticScore, qSub_eq, qDiv_eq]

theorem fusedScore_eq (a b : ℚ) : fusedScore a b = min 1 ((a + b) / 2 + 1/5) := by
  rw [fusedScore, jsMin_eq, qAdd_eq, qDiv_eq, qAdd_eq]
  norm_num [Rat.mkRat_eq_div]


theorem insertStable_perm (keep : α → α → Bool) (r : α) (l : List α) :
    (insertStable keep r l).Perm (r :: l) := by
  induction l with
  | nil => exact List.Perm.refl _
  | cons x xs ih =>
    rw [insertStable]
    split
    · exact (ih.cons x).trans (List.Perm.swap r x xs)
    · exact List.Perm.refl _

theorem sortStable_perm (keep : α → α → Bool) (l : List α) :
    (sortStable keep l).Perm l := by
  induction l with
  | nil => exact List.Perm.refl _
  | cons x xs ih =>
    exact (insertStable_perm keep x (sortStable keep xs)).trans (ih.cons x)

theorem foldl_invariant (P : β → Prop) (f : β → α → β) (l : List α) (init : β)
    (h0 : P init) (hstep : ∀ b a, a ∈ l → P b → P (f b a)) : P (l.foldl f init) := by
  induction l generalizing init with
  | nil => exact h0
  | cons x xs ih =>
    exact ih (f init x) (hstep init x (List.mem_cons_self x xs) h0)
      (fun b a ha hb => hstep b a (List.mem_cons_of_mem x ha) hb)

/-! ### Bounds on the normalisation denominators -/

theorem one_le_maxFtsScore (rs : List SearchResult) : 1 ≤ maxFtsScore rs := by
  induction rs with
  | nil => exact le_refl 1
  | cons x xs ih =>
    show 1 ≤ jsMax (jsAbs x.score) (maxFtsScore xs)
    rw [jsMax_eq]
    exact le_max_of_le_right ih

theorem le_maxFtsScore_of_mem {rs : List SearchResult} {r : SearchResult} (h : r ∈ rs) :
    |r.score| ≤ maxFtsScore rs := by
  induction rs with
  | nil => cases h
  | cons x xs ih =>
    show |r.score| ≤ jsMax (jsAbs x.score) (maxFtsScore xs)
    rw [jsMax_eq, jsAbs_eq]
    rcases List.mem_cons.mp h with rfl | hmem
    · exact le_max_left _ _
    · exact le_max_of_le_right (ih hmem)

theorem one_le_maxSemanticScore (rs : List SearchResult) : 1 ≤ maxSemanticScore rs := by
  induction rs with
  | nil => exact le_refl 1
  | cons x xs ih =>
    show 1 ≤ jsMax x.score (maxSemanticScore xs)
    rw [jsMax_eq]
    exact le_max_of_le_right ih

theorem le_maxSemanticScore_of_mem {rs : List SearchResult} {r : SearchResult} (h : r ∈ rs) :
    r.score ≤ maxSemanticScore rs := by
  induction rs with
  | nil => cases h
  | cons x xs ih =>
    show r.score ≤ jsMax x.score (maxSemanticScore xs)
    rw [jsMax_eq]
    rcases List.mem_cons.mp h with rfl | hmem
    · exact le_max_left _ _
    · exact le_max_of_le_right (ih hmem)

theorem maxFtsScore_pos (rs : List SearchResult) : 0 < maxFtsScore rs :=
  lt_of_lt_of_le one_pos (one_le_maxFtsScore rs)

theorem maxSemanticScore_pos (rs : List SearchResult) : 0 < maxSemanticScore rs :=
  lt_of_lt_of_le one_pos (one_le_maxSemanticScore rs)

/-! ### Bounds on normalised and fused scores -/

theorem normFtsScore_nonneg {rs : List SearchResult} {r : SearchResult} (h : r ∈ rs) :
    0 ≤ normFtsScore rs r := by
  rw [normFtsScore_eq]
  have hd : |r.score| / maxFtsScore rs ≤ 1 :=
    (div_le_one (maxFtsScore_pos rs)).mpr (le_maxFtsScore_of_mem h)
  linarith

theorem normFtsScore_le_one (rs : List SearchResult) (r : SearchResult) :
    normFtsScore rs r ≤ 1 := by
  rw [normFtsScore_eq]
  have hd : 0 ≤ |r.score| / maxFtsScore rs :=
    div_nonneg (abs_nonneg _) (maxFtsScore_pos rs).le
  linarith

theorem normSemanticScore_nonneg {rs : List SearchResult} {r : SearchResult} (h : r ∈ rs) :
    0 ≤ normSemanticScore rs r := by
  rw [normSemanticScore_eq]
  have hd : r.score / maxSemanticScore rs ≤ 1 :=
    (div_le_one (maxSemanticScore_pos rs)).mpr (le_maxSemanticScore_of_mem h)
  linarith

theorem normSemanticScore_le_one {rs : List SearchResult} {r : SearchResult}
    (h0 : 0 ≤ r.score) : normSemanticScore rs r ≤ 1 := by
  rw [normSemanticScore_eq]
  have hd : 0 ≤ r.score / maxSemanticScore rs :=
    div_nonneg h0 (maxSemanticScore_pos rs).le
  linarith

theorem fusedScore_nonneg {a b : ℚ} (ha : 0 ≤ a) (hb : 0 ≤ b) : 0 ≤ fusedScore a b := by
  rw [fusedScore_eq]
  exact le_min (by norm_num) (by linarith)

theorem fusedScore_le_one (a b : ℚ) : fusedScore a b ≤ 1 := by
  rw [fusedScore_eq]
  exact min_le_left _ _

/-! ### Score invariant through the merge phases -/

theorem mapSet_forall {P : SearchResult → Prop} {m : List SearchResult} {r : SearchResult}
    (hm : ∀ y ∈ m, P y) (hr : P r) : ∀ y ∈ mapSet m r, P y := by
  intro y hy
  rw [mapSet] at hy
  split at hy
  · obtain ⟨z, hz, hzy⟩ := List.mem_map.mp hy
    by_cases hc : (z.entry.id == r.entry.id) = true
    · rw [if_pos hc] at hzy
      exact hzy ▸ hr
    · rw [if_neg hc] at hzy
      exact hzy ▸ hm z hz
  · rcases List.mem_append.mp hy with h | h
    · exact hm y h
    · rw [List.mem_singleton.mp h]
      exact hr

set_option maxHeartbeats 1600000 in
theorem mergeSemantic_unit {sem m : List SearchResult} {r : SearchResult}
    (hm : ∀ y ∈ m, 0 ≤ y.score ∧ y.score ≤ 1)
    (hr : r ∈ sem) (hr0 : 0 ≤ r.score) :
    ∀ y ∈ mergeSemantic sem m r, 0 ≤ y.score ∧ y.score ≤ 1 := by
  intro y hy
  rw [mergeSemantic] at hy
  split at hy
  · obtain ⟨z, hz, hzy⟩ := List.mem_map.mp hy
    by_cases hc : (z.entry.id == r.entry.id) = true
    · rw [if_pos hc] at hzy
      subst hzy
      exact ⟨fusedScore_nonneg (hm z hz).1 (normSemanticScore_nonneg hr), fusedScore_le_one _ _⟩
    · rw [if_neg hc] at hzy
      subst hzy
      exact hm z hz
  · rcases List.mem_append.mp hy with h | h
    · exact hm y h
    · rw [List.mem_singleton.mp h]
      exact ⟨normSemanticScore_nonneg hr, normSemanticScore_le_one hr0⟩

set_option maxHeartbeats 1600000 in
theorem hybridMerge_scores_unit (fts sem : List SearchResult) (limit : Nat)
    (hsem : ∀ r ∈ sem, 0 ≤ r.score) :
    ∀ x ∈ hybridMerge fts sem limit, 0 ≤ x.score ∧ x.score ≤ 1 := by
  intro x hx
  rw [hybridMerge] at hx
  have h1 : ∀ y ∈ fts.foldl
      (fun m r => mapSet m { entry := r.entry, score := normFtsScore fts r, source := Source.hybrid })
      [], 0 ≤ y.score ∧ y.score ≤ 1 :=
    foldl_invariant (fun (m : List SearchResult) => ∀ y ∈ m, 0 ≤ y.score ∧ y.score ≤ 1) _ _ _
      (fun y hy => absurd hy (List.not_mem_nil y))
      (fun b a ha hb =>
        mapSet_forall hb ⟨normFtsScore_nonneg ha, normFtsScore_le_one fts a⟩)
  have h2 : ∀ y ∈ sem.foldl (mergeSemantic sem)
      (fts.foldl
        (fun m r => mapSet m { entry := r.entry, score := normFtsScore fts r, source := Source.hybrid })
        []), 0 ≤ y.score ∧ y.score ≤ 1 :=
    foldl_invariant (fun (m : List SearchResult) => ∀ y ∈ m, 0 ≤ y.score ∧ y.score ≤ 1) _ _ _ h1
      (fun b a ha hb => mergeSemantic_unit hb ha (hsem a ha))
  have hx2 : x ∈ sortStable (fun x r => x.score > r.score)
      (sem.foldl (mergeSemantic sem)
        (fts.foldl
          (fun m r => mapSet m { entry := r.entry, score := normFtsScore fts r, source := Source.hybrid })
          [])) := (List.take_sublist _ _).subset hx
  exact h2 x ((sortStable_perm _ _).subset hx2)

/-! ### Claim C1 -/

/-- C1: for every database state, embedding outcome, query and limit, given
that the vector engine reports nonnegative distances, every score in the
ranked list returned by the fusion ranker `searchHybrid` lies in the closed
interval [0,1]. -/
theorem searchHybrid_score_unit_interval (db : SessionDB) (emb : Except Unit (List ℚ))
    (q : String) (limit : Nat)
    (hvss : ∀ qe k r, r ∈ db.vssExec qe k → 0 ≤ r.score) :
    ∀ x ∈ searchHybrid db emb q limit, 0 ≤ x.score ∧ x.score ≤ 1 := by
  intro x hx
  rw [searchHybrid] at hx
  refine hybridMerge_scores_unit _ _ _ ?_ x hx
  intro r hr
  rw [searchSemantic.eq_def] at hr
  split at hr
  · cases hr
  · split at hr
    · cases hr
    · obtain ⟨row, hrow, hre⟩ := List.mem_map.mp hr
      subst hre
      exact hvss _ _ row hrow

/-- C1 witness: the interval bounds hold on the concrete fused score 7/10 of
the doubly-matched entry of `dbBoth`. -/
theorem searchHybrid_score_unit_interval_witness :
    0 ≤ (⟨entryA, mkRat 7 10, Source.hybrid⟩ : SearchResult).score ∧
      (⟨entryA, mkRat 7 10, Source.hybrid⟩ : SearchResult).score ≤ 1 :=
  searchHybrid_score_unit_interval dbBoth (.ok [1]) "find" 5
    (fun qe k r hr => by
      rw [List.mem_singleton.mp hr]
      decide)
    _ (by decide)

/-! ### Claim C2 -/

/-- C2 counterexample: in `dbBoth` the single entry is in both candidate
lists, its normalised keyword score is k = 1 and its normalised vector score
is v = 0 (both in [0,1]), but the fused score min(1, (k+v)/2 + 0.2) = 7/10 is
strictly below k — so the fused score is not ≥ either individually-normalised
score. -/
theorem fusedScore_agreement_counterexample :
    normFtsScore (searchFTS dbBoth "find" 10) ⟨entryA, 0, Source.fts⟩ = 1 ∧
    normSemanticScore (searchSemantic dbBoth (.ok [1]) 10) ⟨entryA, 2, Source.semantic⟩ = 0 ∧
    fusedScore 1 0 = mkRat 7 10 ∧
    (searchHybrid dbBoth (.ok [1]) "find" 5).map (fun r => r.score) = [mkRat 7 10] ∧
    mkRat 7 10 < 1 := by decide

/-- C2 (amended): for normalised scores k, v in [0,1], the fused score
min(1, (k+v)/2 + 0.2) is at least the average of the two scores, hence at
least the smaller of them (it is at least both only when they differ by at
most 0.4, as the counterexample shows). -/
theorem fusedScore_ge_average_and_min (k v : ℚ) (hk0 : 0 ≤ k) (hk1 : k ≤ 1)
    (hv0 : 0 ≤ v) (hv1 : v ≤ 1) :
    (k + v) / 2 ≤ fusedScore k v ∧ min k v ≤ fusedScore k v := by
  rw [fusedScore_eq]
  have havg : min k v ≤ (k + v) / 2 := by
    rcases le_total k v with h | h
    · rw [min_eq_left h]
      linarith
    · rw [min_eq_right h]
      linarith
  have hmain : (k + v) / 2 ≤ min 1 ((k + v) / 2 + 1/5) := by
    rcases le_or_lt ((k + v) / 2 + 1/5) 1 with h | h
    · rw [min_eq_right h]
      linarith
    · rw [min_eq_left h.le]
      linarith
  exact ⟨hmain, le_trans havg hmain⟩

/-- C2 witness: the amended bound applied at k = v = 1/2. -/
theorem fusedScore_ge_average_and_min_witness :
    (mkRat 1 2 + mkRat 1 2) / 2 ≤ fusedScore (mkRat 1 2) (mkRat 1 2) ∧
      min (mkRat 1 2) (mkRat 1 2) ≤ fusedScore (mkRat 1 2) (mkRat 1 2) :=
  fusedScore_ge_average_and_min (mkRat 1 2) (mkRat 1 2)
    (by decide) (by decide) (by decide) (by decide)

/-! ### Claim C4 -/

theorem maxFtsScore_eq_spec (rs : List SearchResult) :
    maxFtsScore rs = max (maxAbsSpec rs) 1 := by
  induction rs with
  | nil =>
    show (1 : ℚ) = max 0 1
    norm_num
  | cons x xs ih =>
    show jsMax (jsAbs x.score) (maxFtsScore xs) = max (jsMax (jsAbs x.score) (maxAbsSpec xs)) 1
    rw [jsMax_eq, jsMax_eq, ih, max_assoc]

theorem maxSemanticScore_eq_spec (rs : List SearchResult) :
    maxSemanticScore rs = max (maxDistSpec rs) 1 := by
  induction rs with
  | nil =>
    show (1 : ℚ) = max 0 1
    norm_num
  | cons x xs ih =>
    show jsMax x.score (maxSemanticScore xs) = max (jsMax x.score (maxDistSpec xs)) 1
    rw [jsMax_eq, jsMax_eq, ih, max_assoc]

/-- C4 counterexample: a single keyword candidate with BM25 score −1/2 gives
maxAbs = 1/2 > 0, so the claimed formula 1 − |score|/maxAbs yields 0, but the
code normalises to 1/2, because it divides by max(maxAbs, 1) = 1, not by
maxAbs. -/
theorem normalization_denominator_counterexample :
    maxAbsSpec [⟨entryA, mkRat (-1) 2, Source.fts⟩] = mkRat 1 2 ∧
    (0 : ℚ) < mkRat 1 2 ∧
    normFtsScore [⟨entryA, mkRat (-1) 2, Source.fts⟩] ⟨entryA, mkRat (-1) 2, Source.fts⟩ =
      mkRat 1 2 ∧
    qSub 1 (qDiv (jsAbs (mkRat (-1) 2)) (maxAbsSpec [⟨entryA, mkRat (-1) 2, Source.fts⟩])) = 0 ∧
    (mkRat 1 2 : ℚ) ≠ 0 := by decide

/-- C4 (amended): the normalisation of the fusion ranker divides by
max(maxAbs, 1) (keyword) and max(maxDist, 1) (vector), not by maxAbs and
maxDist: the normalised scores are 1 − |score|/max(maxAbs, 1) and
1 − distance/max(maxDist, 1), and the claimed formulas hold exactly when the
true maximum is at least 1. -/
theorem normalization_uses_denominator_floor (rs : List SearchResult) (r : SearchResult) :
    (normFtsScore rs r = 1 - |r.score| / max (maxAbsSpec rs) 1 ∧
      normSemanticScore rs r = 1 - r.score / max (maxDistSpec rs) 1) ∧
    (1 ≤ maxAbsSpec rs → normFtsScore rs r = 1 - |r.score| / maxAbsSpec rs) ∧
    (1 ≤ maxDistSpec rs → normSemanticScore rs r = 1 - r.score / maxDistSpec rs) := by
  refine ⟨⟨?_, ?_⟩, ?_, ?_⟩
  · rw [normFtsScore_eq, maxFtsScore_eq_spec]
  · rw [normSemanticScore_eq, maxSemanticScore_eq_spec]
  · intro h
    rw [normFtsScore_eq, maxFtsScore_eq_spec, max_eq_left h]
  · intro h
    rw [normSemanticScore_eq, maxSemanticScore_eq_spec, max_eq_left h]

/-- C4 witness: with a candidate of BM25 score −2 the true maxAbs is 2 ≥ 1
and the claimed keyword formula agrees with the code. -/
theorem normalization_uses_denominator_floor_witness :
    normFtsScore [⟨entryA, -2, Source.fts⟩] ⟨entryA, -2, Source.fts⟩ =
      1 - |(⟨entryA, -2, Source.fts⟩ : SearchResult).score| /
        maxAbsSpec [⟨entryA, -2, Source.fts⟩] :=
  (normalization_uses_denominator_floor [⟨entryA, -2, Source.fts⟩]
    ⟨entryA, -2, Source.fts⟩).2.1 (by decide)

/-! ### Claim C3 -/

theorem searchFTS_eq_pool (db : SessionDB) (q : String) (limit : Nat) :
    searchFTS db q limit = (ftsPool db q).take limit := by
  simp only [searchFTS, ftsPool]
  split
  · simp
  · split
    · exact List.map_take _ _ _
    · rw [search]
      exact List.map_take _ _ _

theorem searchSemantic_error (db : SessionDB) (u : Unit) (k : Nat) :
    searchSemantic db (.error u) k = [] := by
  rw [searchSemantic.eq_def]
  split
  · rfl
  · rfl

theorem mapSet_fresh {m : List SearchResult} {r : SearchResult}
    (h : ∀ y ∈ m, y.entry.id ≠ r.entry.id) : mapSet m r = m ++ [r] := by
  rw [mapSet, if_neg]
  simp only [List.any_eq_true, beq_iff_eq, not_exists, not_and]
  intro y hy
  exact h y hy

theorem foldl_mapSet_eq_append (g : SearchResult → SearchResult)
    (hg : ∀ r, (g r).entry.id = r.entry.id) (l : List SearchResult) :
    ∀ acc : List SearchResult,
      (∀ r ∈ l, ∀ y ∈ acc, y.entry.id ≠ r.entry.id) →
      (l.map (fun r => r.entry.id)).Nodup →
      l.foldl (fun m r => mapSet m (g r)) acc = acc ++ l.map g := by
  induction l with
  | nil =>
    intro acc _ _
    simp
  | cons r rs ih =>
    intro acc hfresh hnodup
    rw [List.map_cons, List.nodup_cons] at hnodup
    have hset : mapSet acc (g r) = acc ++ [g r] := by
      apply mapSet_fresh
      intro y hy
      rw [hg r]
      exact hfresh r (List.mem_cons_self r rs) y hy
    show rs.foldl (fun m r => mapSet m (g r)) (mapSet acc (g r)) = acc ++ (g r :: rs.map g)
    rw [hset, ih (acc ++ [g r]) ?_ hnodup.2, List.append_assoc]
    · rfl
    · intro r2 hr2 y hy
      rcases List.mem_append.mp hy with h | h
      · exact hfresh r2 (List.mem_cons_of_mem r hr2) y h
      · rw [List.mem_singleton.mp h, hg r]
        intro hcontra
        exact hnodup.1 (hcontra ▸ List.mem_map_of_mem (fun x => x.entry.id) hr2)

/-- C3 counterexample: with the Embedding Provider always failing, hybrid
search over `dbTwoKw` returns the same two keyword entries but in the
opposite order of keyword-only search — the normalisation `1 − |bm25|/max`
maps the stronger (more negative) BM25 match to the smaller score before the
descending sort. -/
theorem searchHybrid_embedding_failure_order_counterexample :
    (searchHybrid dbTwoKw (.error ()) "find" 2).map (fun r => r.entry.id) = [2, 1] ∧
    (searchFTS dbTwoKw "find" 2).map (fun r => r.entry.id) = [1, 2] := by decide

/-- C3 (amended): if the embedding call fails, `searchHybrid` returns
normally (it is a total function of the failure) and returns exactly the
keyword candidates — the same set of entries as keyword-only search whenever
the keyword pool holds at most `limit` distinct-id candidates — but ranked by
the normalised keyword score descending instead of keyword order. -/
theorem searchHybrid_embedding_failure_degrades (db : SessionDB) (u : Unit) (q : String)
    (limit : Nat)
    (hnodup : ((ftsPool db q).map (fun r => r.entry.id)).Nodup)
    (hlen : (ftsPool db q).length ≤ limit) :
    List.Perm ((searchHybrid db (.error u) q limit).map (fun r => r.entry))
      ((searchFTS db q limit).map (fun r => r.entry)) := by
  have hfts2 : searchFTS db q (limit * 2) = ftsPool db q := by
    rw [searchFTS_eq_pool]
    exact List.take_of_length_le (le_trans hlen (by omega))
  have hfts1 : searchFTS db q limit = ftsPool db q := by
    rw [searchFTS_eq_pool]
    exact List.take_of_length_le hlen
  rw [searchHybrid, searchSemantic_error, hfts2, hfts1, hybridMerge]
  simp only [List.foldl_nil]
  rw [foldl_mapSet_eq_append
    (fun r => { entry := r.entry, score := normFtsScore (ftsPool db q) r, source := Source.hybrid })
    (fun r => rfl) (ftsPool db q) []
    (fun r _ y hy => absurd hy (List.not_mem_nil y)) hnodup]
  rw [List.nil_append]
  have hlen2 : (sortStable (fun (x r : SearchResult) => x.score > r.score)
      ((ftsPool db q).map
        (fun r => { entry := r.entry, score := normFtsScore (ftsPool db q) r, source := Source.hybrid }))).length
      ≤ limit := by
    rw [(sortStable_perm _ _).length_eq, List.length_map]
    exact hlen
  rw [List.take_of_length_le hlen2]
  refine ((sortStable_perm _ _).map _).trans ?_
  rw [List.map_map]
  exact List.Perm.refl _

/-- C3 witness: the degradation permutation holds on `dbTwoKw` with its two
keyword candidates and limit 2. -/
theorem searchHybrid_embedding_failure_degrades_witness :
    List.Perm ((searchHybrid dbTwoKw (.error ()) "find" 2).map (fun r => r.entry))
      ((searchFTS dbTwoKw "find" 2).map (fun r => r.entry)) :=
  searchHybrid_embedding_failure_degrades dbTwoKw () "find" 2 (by decide) (by decide)

/-! ### Cache lemmas -/

theorem totalSize_nil : totalSize [] = 0 := rfl

theorem totalSize_cons (f : CacheFile) (fs : DocsCache) :
    totalSize (f :: fs) = f.data.length + totalSize fs := by
  simp [totalSize]

theorem parseCacheFile_header (source : DocSource) (content : List Char) :
    parseCacheFile (header source ++ content) = some content := by
  cases source with
  | man =>
    show parseCacheFile (header DocSource.man ++ content) = some content
    rw [parseCacheFile, if_pos]
    · rw [List.drop_left]
    · rw [ List.isPrefixOf_iff_prefix]
      exact List.prefix_append _ _
  | tldr =>
    show parseCacheFile (header DocSource.tldr ++ content) = some content
    rw [parseCacheFile, if_neg, if_pos]
    · rw [List.drop_left]
    · rw [ List.isPrefixOf_iff_prefix]
      exact List.prefix_append _ _
    · intro hpre
      rw [ List.isPrefixOf_iff_prefix, List.prefix_iff_eq_take] at hpre
      rw [List.take_append_eq_append_take] at hpre
      have h20 : (header DocSource.man).length = 20 := by decide
      have h21 : (header DocSource.tldr).length = 21 := by decide
      rw [h20] at hpre
      rw [h21] at hpre
      norm_num at hpre
      exact absurd hpre (by decide)

theorem evictLoop_spec (budget : Nat) (l : List CacheFile) :
    ∀ total, total = totalSize l →
      (evictLoop budget total l).1 ++ (evictLoop budget total l).2 = l ∧
      totalSize (evictLoop budget total l).2 ≤ budget ∧
      ∀ j < (evictLoop budget total l).1.length, budget < totalSize (l.drop j) := by
  induction l with
  | nil =>
    intro total htot
    refine ⟨rfl, Nat.zero_le budget, ?_⟩
    intro j hj
    simp [evictLoop] at hj
  | cons f fs ih =>
    intro total htot
    rw [evictLoop]
    by_cases hb : total ≤ budget
    · rw [if_pos hb]
      refine ⟨rfl, ?_, ?_⟩
      · rw [← htot]
        exact hb
      · intro j hj
        simp at hj
    · rw [if_neg hb]
      have htot2 : total - f.data.length = totalSize fs := by
        rw [htot, totalSize_cons]
        omega
      obtain ⟨hsplit, hbud, hmin⟩ := ih (total - f.data.length) htot2
      refine ⟨?_, hbud, ?_⟩
      · show f :: ((evictLoop budget (total - f.data.length) fs).1 ++
          (evictLoop budget (total - f.data.length) fs).2) = f :: fs
        rw [hsplit]
      · intro j hj
        cases j with
        | zero =>
          rw [List.drop_zero, ← htot]
          omega
        | succ i =>
          rw [List.drop_succ_cons]
          apply hmin
          simp at hj
          omega

theorem totalSize_perm {l₁ l₂ : DocsCache} (h : l₁.Perm l₂) : totalSize l₁ = totalSize l₂ := by
  unfold totalSize
  exact (h.map (fun f => f.data.length)).sum_eq

theorem enforceMaxSize_over (budget : Nat) (st : DocsCache) (h : ¬ totalSize st ≤ budget) :
    enforceMaxSize budget st =
      ((evictLoop budget (totalSize st)
          (sortStable (fun (x r : CacheFile) => x.mtimeMs < r.mtimeMs) st)).2,
        (evictLoop budget (totalSize st)
          (sortStable (fun (x r : CacheFile) => x.mtimeMs < r.mtimeMs) st)).1) := by
  rw [enforceMaxSize, if_neg h]

/-! ### Claim C6 -/

/-- C6: when the cache is over budget, one uncontended eviction pass brings
the total stored bytes within budget, and the deleted records form a prefix
of the records sorted ascending by last-access time, each deletion happening
only while the remaining total still exceeded the budget (so deletion stops
as soon as the total is within budget). -/
theorem enforceMaxSize_budget_lru (budget : Nat) (st : DocsCache)
    (hover : budget < totalSize st) :
    totalSize (enforceMaxSize budget st).1 ≤ budget ∧
    ∃ k, (enforceMaxSize budget st).2 =
        (sortStable (fun (x r : CacheFile) => x.mtimeMs < r.mtimeMs) st).take k ∧
      (enforceMaxSize budget st).1 =
        (sortStable (fun (x r : CacheFile) => x.mtimeMs < r.mtimeMs) st).drop k ∧
      ∀ j < k, budget <
        totalSize ((sortStable (fun (x r : CacheFile) => x.mtimeMs < r.mtimeMs) st).drop j) := by
  rw [enforceMaxSize_over budget st (by omega)]
  have htot : totalSize st =
      totalSize (sortStable (fun (x r : CacheFile) => x.mtimeMs < r.mtimeMs) st) :=
    (totalSize_perm (sortStable_perm _ st)).symm
  obtain ⟨hsplit, hbud, hmin⟩ := evictLoop_spec budget
    (sortStable (fun (x r : CacheFile) => x.mtimeMs < r.mtimeMs) st) (totalSize st) htot
  refine ⟨hbud, (evictLoop budget (totalSize st)
    (sortStable (fun (x r : CacheFile) => x.mtimeMs < r.mtimeMs) st)).1.length, ?_, ?_, hmin⟩
  · have htake := List.take_left
      (evictLoop budget (totalSize st)
        (sortStable (fun (x r : CacheFile) => x.mtimeMs < r.mtimeMs) st)).1
      (evictLoop budget (totalSize st)
        (sortStable (fun (x r : CacheFile) => x.mtimeMs < r.mtimeMs) st)).2
    rw [hsplit] at htake
    exact htake.symm
  · have hdrop := List.drop_left
      (evictLoop budget (totalSize st)
        (sortStable (fun (x r : CacheFile) => x.mtimeMs < r.mtimeMs) st)).1
      (evictLoop budget (totalSize st)
        (sortStable (fun (x r : CacheFile) => x.mtimeMs < r.mtimeMs) st)).2
    rw [hsplit] at hdrop
    exact hdrop.symm

/-- C6 witness: a concrete cache of three records totalling 9 bytes against a
budget of 5; the two oldest-accessed records are deleted. -/
theorem enforceMaxSize_budget_lru_witness :
    totalSize (enforceMaxSize 5
      [⟨"A", ['a','b','c'], 4⟩, ⟨"B", ['d','e','f'], 2⟩, ⟨"C", ['g','h','i'], 3⟩]).1 ≤ 5 ∧
    ∃ k, (enforceMaxSize 5
        [⟨"A", ['a','b','c'], 4⟩, ⟨"B", ['d','e','f'], 2⟩, ⟨"C", ['g','h','i'], 3⟩]).2 =
        (sortStable (fun (x r : CacheFile) => x.mtimeMs < r.mtimeMs)
          [⟨"A", ['a','b','c'], 4⟩, ⟨"B", ['d','e','f'], 2⟩, ⟨"C", ['g','h','i'], 3⟩]).take k ∧
      (enforceMaxSize 5
        [⟨"A", ['a','b','c'], 4⟩, ⟨"B", ['d','e','f'], 2⟩, ⟨"C", ['g','h','i'], 3⟩]).1 =
        (sortStable (fun (x r : CacheFile) => x.mtimeMs < r.mtimeMs)
          [⟨"A", ['a','b','c'], 4⟩, ⟨"B", ['d','e','f'], 2⟩, ⟨"C", ['g','h','i'], 3⟩]).drop k ∧
      ∀ j < k, 5 <
        totalSize ((sortStable (fun (x r : CacheFile) => x.mtimeMs < r.mtimeMs)
          [⟨"A", ['a','b','c'], 4⟩, ⟨"B", ['d','e','f'], 2⟩, ⟨"C", ['g','h','i'], 3⟩]).drop j) :=
  enforceMaxSize_budget_lru 5
    [⟨"A", ['a','b','c'], 4⟩, ⟨"B", ['d','e','f'], 2⟩, ⟨"C", ['g','h','i'], 3⟩] (by decide)

/-! ### Claim C10 -/

theorem find?_map_replace (st : DocsCache) (command : String) (nf : CacheFile)
    (hkey : nf.key = command) (hmem : st.any (fun f => f.key == command) = true) :
    (st.map (fun f => if f.key == command then nf else f)).find?
      (fun f => f.key == command) = some nf := by
  induction st with
  | nil => simp at hmem
  | cons f fs ih =>
    by_cases hc : (f.key == command) = true
    · rw [List.map_cons, if_pos hc]
      have hnf : (nf.key == command) = true := by
        rw [hkey]
        exact beq_self_eq_true command
      simp [List.find?_cons, hnf]
    · rw [List.map_cons, if_neg hc]
      have hcb : (f.key == command) = false := by
        simpa using hc
      rw [List.any_cons, hcb] at hmem
      simp only [List.find?_cons, hcb, Bool.false_or] at hmem ⊢
      exact ih hmem

theorem cacheGet_found (st : DocsCache) (command : String) (now : Nat) (nf : CacheFile)
    (hfind : st.find? (fun f => f.key == command) = some nf) :
    cacheGet st command now =
      match parseCacheFile nf.data with
      | none => (none, st.filter (fun g => g.key != command))
      | some content =>
          (some content,
            st.map (fun g => if g.key == command then { g with mtimeMs := now } else g)) := by
  rw [cacheGet, hfind]

/-- C10: for every prior cache state, command, content and doc source,
`set` then `get` of the same command (with no intervening eviction) returns
exactly the original content: the metadata header is stripped losslessly. -/
theorem cache_set_get_roundtrip (st : DocsCache) (command : String) (content : List Char)
    (source : DocSource) (now1 now2 : Nat) :
    (cacheGet (cacheSet st command content source now1) command now2).1 = some content := by
  rw [cacheSet]
  by_cases hmem : (st.any (fun f => f.key == command)) = true
  · rw [if_pos hmem]
    rw [cacheGet_found _ _ _ ⟨command, header source ++ content, now1⟩
      (find?_map_replace st command ⟨command, header source ++ content, now1⟩ rfl hmem)]
    rw [parseCacheFile_header]
  · rw [if_neg hmem]
    have hnone : st.find? (fun f => f.key == command) = none := by
      rw [List.find?_eq_none]
      intro x hx
      rw [List.any_eq_true] at hmem
      push_neg at hmem
      exact hmem x hx
    have hfind : (st ++ [(⟨command, header source ++ content, now1⟩ : CacheFile)]).find?
        (fun f => f.key == command) = some ⟨command, header source ++ content, now1⟩ := by
      rw [List.find?_append, hnone, Option.none_or]
      simp [List.find?_cons]
    rw [cacheGet_found _ _ _ ⟨command, header source ++ content, now1⟩ hfind]
    rw [parseCacheFile_header]

/-! ### Claim C7 -/

/-- C7: a `get` hit refreshes the last-access time of the record, so for records
A, B, C (each written once, in that order, at increasing times, each under
budget alone but together over budget), a `get(A)` after the three `set`s
makes B the least-recently-used record: the eviction pass deletes B first,
and A survives. -/
theorem cacheGet_refreshes_lru (budget : Nat) (cA cB cC : List Char)
    (sA sB sC : DocSource) (t1 t2 t3 t4 : Nat)
    (h23 : t2 < t3) (h34 : t3 < t4)
    (hA : (header sA ++ cA).length ≤ budget)
    (hover : budget < (header sA ++ cA).length +
      ((header sB ++ cB).length + (header sC ++ cC).length)) :
    (enforceMaxSize budget
        (cacheGet (cacheSet (cacheSet (cacheSet [] "A" cA sA t1) "B" cB sB t2) "C" cC sC t3)
          "A" t4).2).2.head?.map (fun f => f.key) = some "B" ∧
    "A" ∈ ((enforceMaxSize budget
        (cacheGet (cacheSet (cacheSet (cacheSet [] "A" cA sA t1) "B" cB sB t2) "C" cC sC t3)
          "A" t4).2).1.map (fun f => f.key)) := by
  have hA2 : (header sA).length + cA.length ≤ budget := by simpa using hA
  have hover2 : budget < (header sA).length + cA.length +
      ((header sB).length + cB.length + ((header sC).length + cC.length)) := by
    simpa [Nat.add_assoc] using hover
  have hab : (("A" : String) == "B") = false := by decide
  have hac : (("A" : String) == "C") = false := by decide
  have hba : (("B" : String) == "A") = false := by decide
  have hca : (("C" : String) == "A") = false := by decide
  have hst : cacheSet (cacheSet (cacheSet [] "A" cA sA t1) "B" cB sB t2) "C" cC sC t3 =
      [⟨"A", header sA ++ cA, t1⟩, ⟨"B", header sB ++ cB, t2⟩, ⟨"C", header sC ++ cC, t3⟩] := by
    rw [cacheSet, cacheSet, cacheSet]
    simp [hab, hac]
  rw [hst]
  have hget : (cacheGet
      [⟨"A", header sA ++ cA, t1⟩, ⟨"B", header sB ++ cB, t2⟩, ⟨"C", header sC ++ cC, t3⟩]
      "A" t4).2 =
      [⟨"A", header sA ++ cA, t4⟩, ⟨"B", header sB ++ cB, t2⟩, ⟨"C", header sC ++ cC, t3⟩] := by
    rw [cacheGet_found _ _ _ ⟨"A", header sA ++ cA, t1⟩ (by simp [List.find?_cons])]
    rw [parseCacheFile_header]
    simp [hba, hca]
  rw [hget]
  have htot : totalSize
      [⟨"A", header sA ++ cA, t4⟩, ⟨"B", header sB ++ cB, t2⟩, ⟨"C", header sC ++ cC, t3⟩] =
      (header sA ++ cA).length + ((header sB ++ cB).length + (header sC ++ cC).length) := by
    simp [totalSize]
  rw [enforceMaxSize_over budget _ (by rw [htot]; omega)]
  have hsort : sortStable (fun (x r : CacheFile) => x.mtimeMs < r.mtimeMs)
      [⟨"A", header sA ++ cA, t4⟩, ⟨"B", header sB ++ cB, t2⟩, ⟨"C", header sC ++ cC, t3⟩] =
      [⟨"B", header sB ++ cB, t2⟩, ⟨"C", header sC ++ cC, t3⟩, ⟨"A", header sA ++ cA, t4⟩] := by
    have hn32 : ¬ t3 < t2 := by omega
    have h24 : t2 < t4 := by omega
    simp [sortStable, insertStable, hn32, h24, h34]
  rw [hsort]
  set q := evictLoop budget
    (totalSize
      [⟨"A", header sA ++ cA, t4⟩, ⟨"B", header sB ++ cB, t2⟩, ⟨"C", header sC ++ cC, t3⟩])
    [⟨"B", header sB ++ cB, t2⟩, ⟨"C", header sC ++ cC, t3⟩, ⟨"A", header sA ++ cA, t4⟩]
    with hq
  show q.1.head?.map (fun f => f.key) = some "B" ∧ "A" ∈ q.2.map (fun f => f.key)
  have htot2 : totalSize
      [⟨"A", header sA ++ cA, t4⟩, ⟨"B", header sB ++ cB, t2⟩, ⟨"C", header sC ++ cC, t3⟩] =
      totalSize
      [⟨"B", header sB ++ cB, t2⟩, ⟨"C", header sC ++ cC, t3⟩, ⟨"A", header sA ++ cA, t4⟩] := by
    simp [totalSize]
    omega
  obtain ⟨hsplit, hbud, hmin⟩ := evictLoop_spec budget
    [⟨"B", header sB ++ cB, t2⟩, ⟨"C", header sC ++ cC, t3⟩, ⟨"A", header sA ++ cA, t4⟩]
    _ htot2
  rw [← hq] at hsplit hbud hmin
  have hdle2 : q.1.length ≤ 2 := by
    by_contra h3
    have h2m := hmin 2 (by omega)
    simp [totalSize] at h2m
    omega
  have hdpos : q.1 ≠ [] := by
    intro h0
    rw [h0, List.nil_append] at hsplit
    rw [hsplit] at hbud
    simp [totalSize] at hbud
    omega
  constructor
  · cases hp1 : q.1 with
    | nil => exact absurd hp1 hdpos
    | cons x d2 =>
      have hs2 : (x :: d2) ++ q.2 = [⟨"B", header sB ++ cB, t2⟩, ⟨"C", header sC ++ cC, t3⟩,
          ⟨"A", header sA ++ cA, t4⟩] := hp1 ▸ hsplit
      rw [List.cons_append] at hs2
      have hx : x = ⟨"B", header sB ++ cB, t2⟩ := by injection hs2
      subst hx
      simp [hp1]
  · have hdrop := List.drop_left q.1 q.2
    rw [hsplit] at hdrop
    have h12 : q.1.length = 1 ∨ q.1.length = 2 := by
      have : q.1 ≠ [] → 0 < q.1.length := fun h => List.length_pos.mpr h
      have := this hdpos
      omega
    rcases h12 with h1 | h2
    · rw [h1] at hdrop
      rw [← hdrop]
      simp
    · rw [h2] at hdrop
      rw [← hdrop]
      simp

/-- C7 witness: the LRU statement at concrete contents, times 1 < 2 < 3 < 4
and budget 25 (each record is 21 bytes, so any one fits and three do not). -/
theorem cacheGet_refreshes_lru_witness :
    (enforceMaxSize 25
        (cacheGet (cacheSet (cacheSet (cacheSet [] "A" ['a'] DocSource.man 1)
          "B" ['b'] DocSource.man 2) "C" ['c'] DocSource.man 3) "A" 4).2).2.head?.map
      (fun f => f.key) = some "B" ∧
    "A" ∈ ((enforceMaxSize 25
        (cacheGet (cacheSet (cacheSet (cacheSet [] "A" ['a'] DocSource.man 1)
          "B" ['b'] DocSource.man 2) "C" ['c'] DocSource.man 3) "A" 4).2).1.map
      (fun f => f.key)) :=
  cacheGet_refreshes_lru 25 ['a'] ['b'] ['c'] DocSource.man DocSource.man DocSource.man
    1 2 3 4 (by decide) (by decide) (by decide) (by decide)

/-! ### Claim C5 -/

/-- C5: if embedding generation fails, `addEntry` does not propagate the
error: it still returns the id of the newly inserted entry, the entry is
persisted in the history table (and hence keyword-searchable through the
FTS-sync triggers), and no row is added to the vector table or the mapping
table. -/
theorem addEntry_embedding_failure_durable (st : DBState)
    (emb : String → Except Unit (List ℚ)) (prompt response cwd : String) (now : Nat)
    (u : Unit) (hfail : emb (prompt ++ "\n" ++ response) = .error u) :
    (addEntry st emb prompt response cwd now).2 = st.nextId ∧
    (addEntry st emb prompt response cwd now).1.history =
      st.history ++ [⟨st.nextId, prompt, response, now, cwd⟩] ∧
    (addEntry st emb prompt response cwd now).1.vss = st.vss ∧
    (addEntry st emb prompt response cwd now).1.embeddings = st.embeddings := by
  simp [addEntry, hfail]

/-- C5 witness: the failure-path conclusions at a concrete empty store with
AUTOINCREMENT counter 7. -/
theorem addEntry_embedding_failure_durable_witness :
    (addEntry ⟨[], [], [], 7⟩ embFail "p" "r" "/x" 5).2 = 7 ∧
    (addEntry ⟨[], [], [], 7⟩ embFail "p" "r" "/x" 5).1.history =
      [] ++ [⟨7, "p", "r", 5, "/x"⟩] ∧
    (addEntry ⟨[], [], [], 7⟩ embFail "p" "r" "/x" 5).1.vss = [] ∧
    (addEntry ⟨[], [], [], 7⟩ embFail "p" "r" "/x" 5).1.embeddings = [] :=
  addEntry_embedding_failure_durable ⟨[], [], [], 7⟩ embFail "p" "r" "/x" 5 () rfl

/-! ### Claim C9 -/

/-- C9: when embedding generation succeeds, the mapping table afterwards
holds exactly one row (entryId, vectorRowId) for the new entry — written by a
separate insert from the vector insert — and the vector-index row identified
by that vectorRowId holds the embedding of the new entry; when embedding fails,
the entry has no mapping row.  (In this code the vector row is inserted with
`rowid = historyId`, so the mapping row is `(historyId, historyId)`.) -/
theorem addEntry_mapping_row_unique (st : DBState)
    (emb : String → Except Unit (List ℚ)) (prompt response cwd : String) (now : Nat)
    (hfreshMap : ∀ pr ∈ st.embeddings, pr.1 ≠ st.nextId)
    (hfreshVss : ∀ pr ∈ st.vss, pr.1 ≠ st.nextId) :
    (∀ v, emb (prompt ++ "\n" ++ response) = .ok v →
      (addEntry st emb prompt response cwd now).1.embeddings.filter
        (fun pr => pr.1 == st.nextId) = [(st.nextId, st.nextId)] ∧
      (addEntry st emb prompt response cwd now).1.vss.filter
        (fun pr => pr.1 == st.nextId) = [(st.nextId, v)]) ∧
    (∀ u, emb (prompt ++ "\n" ++ response) = .error u →
      (addEntry st emb prompt response cwd now).1.embeddings.filter
        (fun pr => pr.1 == st.nextId) = []) := by
  have hmapnil : st.embeddings.filter (fun pr => pr.1 == st.nextId) = [] :=
    List.filter_eq_nil_iff.mpr (fun pr hpr => by simpa using hfreshMap pr hpr)
  have hvssnil : st.vss.filter (fun pr => pr.1 == st.nextId) = [] :=
    List.filter_eq_nil_iff.mpr (fun pr hpr => by simpa using hfreshVss pr hpr)
  constructor
  · intro v hok
    simp only [addEntry, hok]
    constructor
    · rw [List.filter_append, hmapnil]
      simp
    · rw [List.filter_append, hvssnil]
      simp
  · intro u herr
    simp only [addEntry, herr]
    exact hmapnil

/-- C9 witness: the success-path conclusions at a concrete empty store and an
embedding provider returning `[1]`. -/
theorem addEntry_mapping_row_unique_witness :
    (addEntry ⟨[], [], [], 0⟩ embOkOne "p" "r" "/x" 5).1.embeddings.filter
      (fun pr => pr.1 == 0) = [(0, 0)] ∧
    (addEntry ⟨[], [], [], 0⟩ embOkOne "p" "r" "/x" 5).1.vss.filter
      (fun pr => pr.1 == 0) = [(0, [1])] :=
  (addEntry_mapping_row_unique ⟨[], [], [], 0⟩ embOkOne "p" "r" "/x" 5
    (fun pr hpr => absurd hpr (List.not_mem_nil pr))
    (fun pr hpr => absurd hpr (List.not_mem_nil pr))).1 [1] rfl

/-! ### Claim C8 -/

/-- C8 counterexample: on the empty query the code returns the empty list and
performs no substring fallback, although the fallback search would have
returned the stored entry (with score 0): the claimed empty-input fallback
does not happen. -/
theorem searchFTS_empty_query_counterexample :
    searchFTS dbEmptyQ "" 5 = [] ∧
    (search dbEmptyQ "" 5).map
      (fun e => ({ entry := e, score := 0, source := Source.fts } : SearchResult)) ≠ [] := by
  decide

/-- C8 (amended): `searchFTS` is a total function of the engine outcome (no
exception reaches the caller): when the sanitised query is empty it returns
the empty list (with no substring fallback), and on a query-syntax error from
the engine it falls back to the literal substring search over prompt and
response with neutral score 0. -/
theorem searchFTS_total_fallback (db : SessionDB) (q : String) (limit : Nat) :
    ((sanitize q).data.isEmpty = true → searchFTS db q limit = []) ∧
    (∀ u, (sanitize q).data.isEmpty = false → db.ftsExec (sanitize q) = .error u →
      searchFTS db q limit =
        (search db q limit).map
          (fun e => ({ entry := e, score := 0, source := Source.fts } : SearchResult))) := by
  constructor
  · intro h
    simp [searchFTS, h]
  · intro u hne herr
    simp [searchFTS, hne, herr]

/-- C8 witness: both amended facts at concrete inputs — a query sanitising to
empty, and a database whose engine rejects the query syntax. -/
theorem searchFTS_total_fallback_witness :
    searchFTS dbErr "()" 5 = [] ∧
    searchFTS dbErr "find" 5 =
      (search dbErr "find" 5).map
        (fun e => ({ entry := e, score := 0, source := Source.fts } : SearchResult)) :=
  ⟨(searchFTS_total_fallback dbErr "()" 5).1 (by decide),
   (searchFTS_total_fallback dbErr "find" 5).2 () (by decide) rfl⟩

end HeyAI
